import Mathlib

/-!
Shallow embedding of the spaced-repetition scheduling engine of
`voc_to_text.py` (class `WordTracker`), together with proofs of the
specified properties.

Modelling choices:
* Timestamps are modelled as integers at whole-day granularity: an
  occurrence's parsed `date` is an `Int`, the current clock `now` is an
  `Int`, and `(datetime.now() - fromisoformat(d)).days` becomes `now - d`.
* A persisted occurrence may be any JSON value; the code only
  distinguishes whether it is a dict (`isinstance(occ, dict)`), whether
  its `date` entry exists and parses, and the truthiness of its `repeat`
  entry (`occ.get('repeat', False)`).  `Occ` captures exactly these
  distinctions.
* The Python `dict` holding `self.word_stats` is modelled as an
  insertion-ordered association list.  `lookup` finds the first binding,
  `setEntry` replaces the first binding in place and appends at the end
  when the key is absent, exactly like `d[k] = v`.
* `calculate_word_priority` mutates `self.word_stats` when the looked-up
  record has a missing or non-list `occurrences` field (it assigns
  `stats['occurrences'] = []`); the embedding therefore returns the
  priority together with the resulting store.
-/

namespace VocToText

/-- Result of reading `occ['date']` and `datetime.fromisoformat` on it:
the key may be missing (`KeyError`), the value may fail to parse
(`ValueError`/`TypeError`), or it parses to an instant. -/
inductive DateField where
  | missing
  | unparseable
  | date (t : Int)
deriving DecidableEq, Repr

/-- One element of a record's `occurrences` list: either not a dict at
all, or a dict with its (possibly absent/unparseable) `date` and the
truthiness of its `repeat` entry. -/
inductive Occ where
  | notDict
  | mk (date : DateField) («repeat» : Bool)
deriving DecidableEq, Repr

/-- `isinstance(occ, dict) and occ.get('repeat', False)`. -/
def isRepeat : Occ → Bool
  | Occ.notDict => false
  | Occ.mk _ r => r

/-- The `occurrences` field of a stored dict: absent, present but not a
list, or an actual list. -/
inductive OccsField where
  | absent
  | notList
  | list (occs : List Occ)
deriving DecidableEq, Repr

/-- A stored record (a Python dict with `word`, `translation` and
`occurrences` entries, the shape the program itself writes). -/
structure WordRecord where
  word : String
  translation : String
  occurrences : OccsField
deriving DecidableEq, Repr

/-- `self.word_stats`: an insertion-ordered mapping from composite key
to record. -/
abbrev Store := List (String × WordRecord)

/-- First binding for `key`, like Python `d[k]` / `k in d`. -/
def lookup : Store → String → Option WordRecord
  | [], _ => none
  | (k, r) :: rest, key => if k = key then some r else lookup rest key

/-- Python `d[k] = v`: replace the first binding in place, append at the
end when absent. -/
def setEntry : Store → String → WordRecord → Store
  | [], key, r => [(key, r)]
  | (k, v) :: rest, key, r =>
    if k = key then (k, r) :: rest else (k, v) :: setEntry rest key r

/-- `word_key = f"{word}|{translation}"`. -/
def word_key (word translation : String) : String :=
  word ++ "|" ++ translation

/-- Days since the last occurrence: `(now - fromisoformat(last['date'])).days`,
with 999 when the list is empty or the date is missing/unparseable
(lines 248-256 of `voc_to_text.py`). -/
def days_since_last_use (now : Int) (occs : List Occ) : Int :=
  match occs.getLast? with
  | some (Occ.mk (DateField.date t) _) => now - t
  | _ => 999

/-- `times_not_understood`: occurrences that are dicts with a truthy
`repeat` entry. -/
def times_not_understood_of (occs : List Occ) : Nat :=
  (occs.filter isRepeat).length

/-- `base_priority = min(days_since_last_use * 5, 50)`. -/
def base_priority (days : Int) : Int :=
  min (days * 5) 50

/-- `misunderstanding_bonus = times_not_understood * 20`. -/
def misunderstanding_bonus (times_not_understood : Nat) : Int :=
  (times_not_understood : Int) * 20

/-- `frequency_penalty = min(times_used * 2, 30)`. -/
def frequency_penalty (times_used : Nat) : Int :=
  min ((times_used : Int) * 2) 30

/-- The priority formula applied to an `occurrences` list:
`max(base + bonus - penalty, 1)`. -/
def priority_of_occurrences (now : Int) (occs : List Occ) : Int :=
  max (base_priority (days_since_last_use now occs)
        + misunderstanding_bonus (times_not_understood_of occs)
        - frequency_penalty occs.length) 1

/-- `WordTracker.calculate_word_priority` (lines 235-268).  Returns the
priority together with the store after the call: the call assigns
`stats['occurrences'] = []` when the field is missing or not a list, so
the store is part of the result. -/
def calculate_word_priority (now : Int) (word_stats : Store)
    (word translation : String) : Int × Store :=
  match lookup word_stats (word_key word translation) with
  | none => (100, word_stats)
  | some stats =>
    match stats.occurrences with
    | OccsField.list occs => (priority_of_occurrences now occs, word_stats)
    | _ =>
      (priority_of_occurrences now [],
       setEntry word_stats (word_key word translation)
         { stats with occurrences := OccsField.list [] })

/-- `WordTracker._add_occurrence` (lines 278-297): append
`{"date": now.isoformat(), "repeat": repeat}` to the record for the
pair, creating the record when absent, resetting a missing/non-list
`occurrences` field to `[]` before appending. -/
def _add_occurrence (now : Int) (word_stats : Store)
    (word translation : String) («repeat» : Bool) : Store :=
  let key := word_key word translation
  let occurrence := Occ.mk (DateField.date now) «repeat»
  match lookup word_stats key with
  | none =>
    setEntry word_stats key ⟨word, translation, OccsField.list [occurrence]⟩
  | some r =>
    let occs := match r.occurrences with | OccsField.list l => l | _ => []
    setEntry word_stats key
      { r with occurrences := OccsField.list (occs ++ [occurrence]) }

/-- `WordTracker.mark_word_used` (lines 270-272). -/
def mark_word_used (now : Int) (word_stats : Store)
    (word translation : String) : Store :=
  _add_occurrence now word_stats word translation false

/-- `WordTracker.mark_word_not_understood` (lines 274-276). -/
def mark_word_not_understood (now : Int) (word_stats : Store)
    (word translation : String) : Store :=
  _add_occurrence now word_stats word translation true

/-- A value loaded from the persisted JSON mapping: either not a dict,
or a dict (with the field shapes of `WordRecord`). -/
inductive RawEntry where
  | notDict
  | dict (r : WordRecord)
deriving DecidableEq, Repr

/-- Split a character list at the first `'|'`:
`none` when no separator occurs. -/
def splitFirstBar : List Char → Option (List Char × List Char)
  | [] => none
  | c :: cs =>
    if c = '|' then some ([], cs)
    else
      match splitFirstBar cs with
      | none => none
      | some (l, r) => some (c :: l, r)

/-- Python `key.split('|', 1)`: the part before the first separator and
the part after it (the whole key and `""` when there is no separator). -/
def splitKey (key : String) : String × String :=
  match splitFirstBar key.data with
  | none => (key, "")
  | some (l, r) => (⟨l⟩, ⟨r⟩)

/-- The repaired record `_validate_and_fix_data` rebuilds from a key
(lines 217-227). -/
def fixedRecordFor (key : String) : WordRecord :=
  ⟨(splitKey key).1, (splitKey key).2, OccsField.list []⟩

/-- `isinstance(value, dict) and 'occurrences' in value and
isinstance(value['occurrences'], list)`. -/
def goodShape : RawEntry → Bool
  | RawEntry.dict r =>
    match r.occurrences with
    | OccsField.list _ => true
    | _ => false
  | RawEntry.notDict => false

/-- One iteration of the loop in `_validate_and_fix_data`: keep a
well-shaped entry, rebuild a corrupted one from its key. -/
def fixEntry (key : String) : RawEntry → String × WordRecord
  | RawEntry.dict r =>
    match r.occurrences with
    | OccsField.list _ => (key, r)
    | _ => (key, fixedRecordFor key)
  | RawEntry.notDict => (key, fixedRecordFor key)

/-- `WordTracker._validate_and_fix_data` (lines 209-228). -/
def validate_and_fix_data (data : List (String × RawEntry)) : Store :=
  data.map (fun kv => fixEntry kv.1 kv.2)

/-- `WordTracker.load_tracking_data` (lines 197-207) applied to a
successfully parsed JSON mapping: validate and fix it. -/
def load_tracking_data (data : List (String × RawEntry)) : Store :=
  validate_and_fix_data data

/-- `WordTracker.save_tracking_data` (lines 230-233): `json.dump` of the
mapping, which serializes every record as a dict. -/
def save_tracking_data (word_stats : Store) : List (String × RawEntry) :=
  word_stats.map (fun kv => (kv.1, RawEntry.dict kv.2))

/-- A vocabulary tuple from the selection input: 2 or 3 elements
(pronunciation optional). -/
inductive VocabEntry where
  | pair (word translation : String)
  | triple (word translation pronunciation : String)
deriving DecidableEq, Repr

/-- `vocab_entry[0]`. -/
def entryWord : VocabEntry → String
  | VocabEntry.pair w _ => w
  | VocabEntry.triple w _ _ => w

/-- `vocab_entry[1]`. -/
def entryTranslation : VocabEntry → String
  | VocabEntry.pair _ t => t
  | VocabEntry.triple _ t _ => t

/-- `vocab_entry[2] if len(vocab_entry) > 2 else ""`. -/
def entryPronunciation : VocabEntry → String
  | VocabEntry.pair _ _ => ""
  | VocabEntry.triple _ _ p => p

/-- A `(word, translation, pronunciation, priority)` tuple of the
`word_priorities` list. -/
abbrev Scored := String × String × String × Int

/-- The sort key `lambda x: x[3]`. -/
def priof (x : Scored) : Int := x.2.2.2

/-- The scoring loop of `select_words_by_priority` (lines 311-317):
scores each sampled entry in order, threading the store through the
calls (a priority call can normalize a corrupted record in place). -/
def scoreAll (now : Int) : Store → List VocabEntry → List Scored × Store
  | stats, [] => ([], stats)
  | stats, e :: es =>
    let res := calculate_word_priority now stats (entryWord e) (entryTranslation e)
    let rest := scoreAll now res.2 es
    ((entryWord e, entryTranslation e, entryPronunciation e, res.1) :: rest.1,
     rest.2)

/-- Stable insertion for the descending sort: `x` goes before the first
element whose priority does not exceed `x`'s. -/
def insertDesc (x : Scored) : List Scored → List Scored
  | [] => [x]
  | y :: l => if priof y ≤ priof x then x :: y :: l else y :: insertDesc x l

/-- `word_priorities.sort(key=lambda x: x[3], reverse=True)`: a stable
sort by descending priority. -/
def sortDesc : List Scored → List Scored
  | [] => []
  | x :: l => insertDesc x (sortDesc l)

/-- The scored selection `word_priorities[:count]` after sorting. -/
def select_scored (now : Int) (stats : Store) (sampled : List VocabEntry)
    (count : Nat) : List Scored :=
  (sortDesc (scoreAll now stats sampled).1).take count

/-- `WordTracker.select_words_by_priority` (lines 299-324).  The call to
`random.sample(vocab_list, min(40, len(vocab_list)))` is passed in as
`sampled`; theorems about this function hypothesize that `sampled` has
length `min 40 vocab_list.length` and draws its elements from
`vocab_list`. -/
def select_words_by_priority (now : Int) (stats : Store)
    (vocab_list sampled : List VocabEntry) (count : Nat) :
    List (String × String × String) :=
  if vocab_list.isEmpty then []
  else (select_scored now stats sampled count).map
    (fun x => (x.1, x.2.1, x.2.2.1))

end VocToText

namespace VocToText

example :
    calculate_word_priority 0 [] "chat" "cat" = (100, []) := by decide

example : splitKey "bonjour|hello" = ("bonjour", "hello") := by decide

example : splitKey "a|b|c" = ("a", "b|c") := by decide

example : splitKey "nobar" = ("nobar", "") := by decide

example :
    mark_word_not_understood 0 [] "chat" "cat"
      = [("chat|cat", ⟨"chat", "cat",
          OccsField.list [Occ.mk (DateField.date 0) true]⟩)] := by decide

example :
    (calculate_word_priority 0 (mark_word_not_understood 0 [] "chat" "cat")
      "chat" "cat").1 = 18 := by decide

example :
    select_words_by_priority 0 []
      [VocabEntry.pair "a" "b", VocabEntry.triple "c" "d" "p"]
      [VocabEntry.triple "c" "d" "p", VocabEntry.pair "a" "b"] 1
      = [("c", "d", "p")] := by decide

/-- A record whose `occurrences` field is an actual list. -/
def WellFormedRecord (r : WordRecord) : Bool :=
  match r.occurrences with
  | OccsField.list _ => true
  | _ => false

/-- Every record of the store has a list-valued `occurrences` field:
the invariant established by `load_tracking_data` and maintained by the
recorder operations. -/
def WellFormed (s : Store) : Bool :=
  s.all (fun kv => WellFormedRecord kv.2)

/-- The number of repeat occurrences recorded for a key (0 when the key
is absent or its `occurrences` field is not a list). -/
def recordMisunderstandings (r : WordRecord) : Nat :=
  match r.occurrences with
  | OccsField.list l => times_not_understood_of l
  | _ => 0

def storeMisunderstandings (s : Store) (key : String) : Nat :=
  match lookup s key with
  | none => 0
  | some r => recordMisunderstandings r


theorem lookup_setEntry_self (s : Store) (key : String) (r : WordRecord) :
    lookup (setEntry s key r) key = some r := by
  induction s with
  | nil => simp [setEntry, lookup]
  | cons kv rest ih =>
    obtain ⟨k0, v0⟩ := kv
    by_cases h : k0 = key
    · simp [setEntry, lookup, h]
    · simp [setEntry, lookup, h, ih]

theorem lookup_setEntry_ne (s : Store) (key k : String) (r : WordRecord)
    (h : k ≠ key) : lookup (setEntry s key r) k = lookup s k := by
  induction s with
  | nil =>
    have h2 : key ≠ k := Ne.symm h
    simp [setEntry, lookup, h2]
  | cons kv rest ih =>
    obtain ⟨k0, v0⟩ := kv
    by_cases hk : k0 = key
    · have h2 : key ≠ k := Ne.symm h
      simp [setEntry, lookup, hk, h2]
    · by_cases hk2 : k0 = k
      · simp [setEntry, lookup, hk, hk2, h]
      · simp [setEntry, lookup, hk, hk2, ih]

theorem setEntry_eq_append (s : Store) (key : String) (r : WordRecord)
    (h : lookup s key = none) : setEntry s key r = s ++ [(key, r)] := by
  induction s with
  | nil => simp [setEntry]
  | cons kv rest ih =>
    obtain ⟨k0, v0⟩ := kv
    by_cases hk : k0 = key
    · simp [lookup, hk] at h
    · simp only [lookup, if_neg hk] at h
      simp [setEntry, hk, ih h]

theorem lookup_some_mem (s : Store) (key : String) (r : WordRecord)
    (h : lookup s key = some r) : (key, r) ∈ s := by
  induction s with
  | nil => simp [lookup] at h
  | cons kv rest ih =>
    obtain ⟨k0, v0⟩ := kv
    by_cases hk : k0 = key
    · simp only [lookup, if_pos hk, Option.some.injEq] at h
      subst hk
      subst h
      exact List.mem_cons_self _ _
    · simp only [lookup, if_neg hk] at h
      exact List.mem_cons_of_mem _ (ih h)

theorem wellFormed_setEntry (s : Store) (key : String) (r : WordRecord)
    (hs : WellFormed s = true) (hr : WellFormedRecord r = true) :
    WellFormed (setEntry s key r) = true := by
  induction s with
  | nil => simp [setEntry, WellFormed, hr]
  | cons kv rest ih =>
    obtain ⟨k0, v0⟩ := kv
    simp only [WellFormed, List.all_cons, Bool.and_eq_true] at hs
    by_cases hk : k0 = key
    · simp only [setEntry, if_pos hk, WellFormed, List.all_cons,
        Bool.and_eq_true]
      exact ⟨hr, hs.2⟩
    · simp only [setEntry, if_neg hk, WellFormed, List.all_cons,
        Bool.and_eq_true]
      exact ⟨hs.1, ih hs.2⟩

theorem calc_eq_of_lookup_none (now : Int) (s : Store)
    (word translation : String)
    (h : lookup s (word_key word translation) = none) :
    calculate_word_priority now s word translation = (100, s) := by
  simp [calculate_word_priority, h]

theorem calc_eq_of_lookup_list (now : Int) (s : Store)
    (word translation : String) (r : WordRecord) (occs : List Occ)
    (h : lookup s (word_key word translation) = some r)
    (ho : r.occurrences = OccsField.list occs) :
    calculate_word_priority now s word translation
      = (priority_of_occurrences now occs, s) := by
  obtain ⟨w0, t0, oc⟩ := r
  simp only at ho
  subst ho
  simp [calculate_word_priority, h]

theorem calc_eq_of_lookup_absent (now : Int) (s : Store)
    (word translation : String) (r : WordRecord)
    (h : lookup s (word_key word translation) = some r)
    (ho : r.occurrences = OccsField.absent) :
    calculate_word_priority now s word translation
      = (priority_of_occurrences now [],
         setEntry s (word_key word translation)
           { r with occurrences := OccsField.list [] }) := by
  obtain ⟨w0, t0, oc⟩ := r
  simp only at ho
  subst ho
  simp [calculate_word_priority, h]

theorem calc_eq_of_lookup_notList (now : Int) (s : Store)
    (word translation : String) (r : WordRecord)
    (h : lookup s (word_key word translation) = some r)
    (ho : r.occurrences = OccsField.notList) :
    calculate_word_priority now s word translation
      = (priority_of_occurrences now [],
         setEntry s (word_key word translation)
           { r with occurrences := OccsField.list [] }) := by
  obtain ⟨w0, t0, oc⟩ := r
  simp only at ho
  subst ho
  simp [calculate_word_priority, h]

theorem one_le_priority_of_occurrences (now : Int) (occs : List Occ) :
    1 ≤ priority_of_occurrences now occs :=
  le_max_right _ _

theorem priority_of_occurrences_le (now : Int) (occs : List Occ) :
    priority_of_occurrences now occs
      ≤ 50 + 20 * (times_not_understood_of occs : Int) := by
  unfold priority_of_occurrences base_priority misunderstanding_bonus
    frequency_penalty
  omega

theorem times_not_understood_nil : times_not_understood_of [] = 0 := rfl

/-- C1 counterexample store: three misunderstandings with unparseable
dates give `50 + 60 - 6 = 104 > 100`. -/
def cexStoreC1 : Store :=
  [("a|b", ⟨"a", "b",
    OccsField.list [Occ.mk DateField.unparseable true,
                    Occ.mk DateField.unparseable true,
                    Occ.mk DateField.unparseable true]⟩)]

/-- C1 (counterexample): the claimed upper bound of 100 fails — a record
with three repeat occurrences and no parseable date scores
`min(999*5, 50) + 3*20 - min(3*2, 30) = 104`. -/
theorem calculate_word_priority_range_cex :
    ¬ ((calculate_word_priority 0 cexStoreC1 "a" "b").1 ≤ 100) := by decide

/-- C1 (amended): for every pair and every store state, the priority is
at least 1 and at most `max 100 (50 + 20 * misunderstandings)`: it is
100 for an unknown pair and bounded by `50 + 20` per recorded
misunderstanding otherwise, so it exceeds 100 once a record carries
three or more misunderstandings. -/
theorem calculate_word_priority_range_amended (now : Int) (s : Store)
    (word translation : String) :
    1 ≤ (calculate_word_priority now s word translation).1
    ∧ (calculate_word_priority now s word translation).1
        ≤ max 100
            (50 + 20 * (storeMisunderstandings s (word_key word translation) : Int)) := by
  cases h : lookup s (word_key word translation) with
  | none =>
    rw [calc_eq_of_lookup_none now s word translation h]
    simp only [storeMisunderstandings, h]
    omega
  | some r =>
    cases ho : r.occurrences with
    | list occs =>
      rw [calc_eq_of_lookup_list now s word translation r occs h ho]
      have h1 := one_le_priority_of_occurrences now occs
      have h2 := priority_of_occurrences_le now occs
      simp only [storeMisunderstandings, h, recordMisunderstandings, ho]
      omega
    | absent =>
      rw [calc_eq_of_lookup_absent now s word translation r h ho]
      have h1 := one_le_priority_of_occurrences now []
      have h2 := priority_of_occurrences_le now []
      rw [times_not_understood_nil] at h2
      simp only [storeMisunderstandings, h, recordMisunderstandings, ho]
      omega
    | notList =>
      rw [calc_eq_of_lookup_notList now s word translation r h ho]
      have h1 := one_le_priority_of_occurrences now []
      have h2 := priority_of_occurrences_le now []
      rw [times_not_understood_nil] at h2
      simp only [storeMisunderstandings, h, recordMisunderstandings, ho]
      omega

/-- C2: for a pair whose record exists in the store, the priority lies
between 1 and `50 + 20 * (number of occurrences with repeat = true)`,
and for a fixed clock and fixed history the result is exactly
reproducible. -/
theorem calculate_word_priority_record_bounds_det (now : Int) (s : Store)
    (word translation : String) (r : WordRecord)
    (h : lookup s (word_key word translation) = some r) :
    (1 ≤ (calculate_word_priority now s word translation).1
      ∧ (calculate_word_priority now s word translation).1
          ≤ 50 + 20 * (recordMisunderstandings r : Int))
    ∧ (∀ now2 s2, now2 = now → s2 = s →
        (calculate_word_priority now2 s2 word translation).1
          = (calculate_word_priority now s word translation).1) := by
  refine ⟨?_, by intro now2 s2 h1 h2; rw [h1, h2]⟩
  cases ho : r.occurrences with
  | list occs =>
    rw [calc_eq_of_lookup_list now s word translation r occs h ho]
    have h1 := one_le_priority_of_occurrences now occs
    have h2 := priority_of_occurrences_le now occs
    simp only [recordMisunderstandings, ho]
    omega
  | absent =>
    rw [calc_eq_of_lookup_absent now s word translation r h ho]
    have h1 := one_le_priority_of_occurrences now []
    have h2 := priority_of_occurrences_le now []
    rw [times_not_understood_nil] at h2
    simp only [recordMisunderstandings, ho]
    omega
  | notList =>
    rw [calc_eq_of_lookup_notList now s word translation r h ho]
    have h1 := one_le_priority_of_occurrences now []
    have h2 := priority_of_occurrences_le now []
    rw [times_not_understood_nil] at h2
    simp only [recordMisunderstandings, ho]
    omega

/-- A concrete record for the C2 witness. -/
def witnessRecordC2 : WordRecord :=
  ⟨"chat", "cat", OccsField.list [Occ.mk (DateField.date 0) true]⟩

theorem calculate_word_priority_record_bounds_det_witness :
    lookup [("chat|cat", witnessRecordC2)] (word_key "chat" "cat")
      = some witnessRecordC2
    ∧ ((1 ≤ (calculate_word_priority 0 [("chat|cat", witnessRecordC2)]
          "chat" "cat").1
      ∧ (calculate_word_priority 0 [("chat|cat", witnessRecordC2)]
          "chat" "cat").1
          ≤ 50 + 20 * (recordMisunderstandings witnessRecordC2 : Int))
    ∧ (∀ now2 s2, now2 = 0 → s2 = [("chat|cat", witnessRecordC2)] →
        (calculate_word_priority now2 s2 "chat" "cat").1
          = (calculate_word_priority 0 [("chat|cat", witnessRecordC2)]
              "chat" "cat").1)) :=
  ⟨by decide,
   calculate_word_priority_record_bounds_det 0 [("chat|cat", witnessRecordC2)]
     "chat" "cat" witnessRecordC2 (by decide)⟩

/-- C3 counterexample store: a record with a non-list `occurrences`
field. -/
def cexStoreC3 : Store := [("a|b", ⟨"a", "b", OccsField.notList⟩)]

/-- C3 (counterexample): on a store holding a record with a non-list
`occurrences` field, `calculate_word_priority` mutates the store — it
assigns `stats['occurrences'] = []` (lines 244-246 of
`voc_to_text.py`). -/
theorem calculate_word_priority_store_frame_cex :
    (calculate_word_priority 0 cexStoreC3 "a" "b").2 ≠ cexStoreC3 := by decide

/-- C3 (amended): on every store state whose records all have
list-valued `occurrences` fields — the invariant established by load
and maintained by the recorder — `calculate_word_priority` leaves the
store unchanged; only a record with a missing or non-list `occurrences`
field is normalized in place. -/
theorem calculate_word_priority_store_frame (now : Int) (s : Store)
    (word translation : String) (h : WellFormed s = true) :
    (calculate_word_priority now s word translation).2 = s := by
  cases hl : lookup s (word_key word translation) with
  | none => rw [calc_eq_of_lookup_none now s word translation hl]
  | some r =>
    have hmem := lookup_some_mem s _ r hl
    simp only [WellFormed, List.all_eq_true] at h
    have hr := h _ hmem
    simp only [WellFormedRecord] at hr
    cases ho : r.occurrences with
    | list occs => rw [calc_eq_of_lookup_list now s word translation r occs hl ho]
    | absent => rw [ho] at hr; simp at hr
    | notList => rw [ho] at hr; simp at hr

theorem calculate_word_priority_store_frame_witness :
    WellFormed [("chat|cat", witnessRecordC2)] = true
    ∧ (calculate_word_priority 5 [("chat|cat", witnessRecordC2)]
        "chat" "cat").2 = [("chat|cat", witnessRecordC2)] :=
  ⟨by decide,
   calculate_word_priority_store_frame 5 [("chat|cat", witnessRecordC2)]
     "chat" "cat" (by decide)⟩

/-- C9: a pair whose derived key is absent from the store gets priority
exactly 100. -/
theorem new_word_priority_100 (now : Int) (s : Store)
    (word translation : String)
    (h : lookup s (word_key word translation) = none) :
    (calculate_word_priority now s word translation).1 = 100 := by
  rw [calc_eq_of_lookup_none now s word translation h]

theorem new_word_priority_100_witness :
    lookup [] (word_key "chat" "cat") = none
    ∧ (calculate_word_priority 3 [] "chat" "cat").1 = 100 :=
  ⟨by decide, new_word_priority_100 3 [] "chat" "cat" (by decide)⟩

/-- The loop body of `_validate_and_fix_data` keeps the key of every
entry. -/
theorem fixEntry_fst (key : String) (v : RawEntry) : (fixEntry key v).1 = key := by
  cases v with
  | notDict => rfl
  | dict r =>
    obtain ⟨w0, t0, oc⟩ := r
    cases oc <;> rfl

/-- C7: round trip through persistence is the identity on valid
mappings — saving a store whose records all have list-valued
`occurrences` fields and loading it back yields the same mapping (same
keys, same occurrence sequences, same order). -/
theorem save_load_round_trip (word_stats : Store)
    (h : WellFormed word_stats = true) :
    load_tracking_data (save_tracking_data word_stats) = word_stats := by
  induction word_stats with
  | nil => rfl
  | cons kv rest ih =>
    obtain ⟨k0, v0⟩ := kv
    simp only [WellFormed, List.all_cons, Bool.and_eq_true] at h
    obtain ⟨w0, t0, oc⟩ := v0
    simp only [WellFormedRecord] at h
    cases oc with
    | list occs =>
      have htail := ih h.2
      simp only [load_tracking_data, validate_and_fix_data,
        save_tracking_data, List.map_cons, List.map_map] at htail ⊢
      rw [htail]
      simp [fixEntry]
    | absent => simp at h
    | notList => simp at h

theorem save_load_round_trip_witness :
    WellFormed [("chat|cat", witnessRecordC2)] = true
    ∧ load_tracking_data (save_tracking_data [("chat|cat", witnessRecordC2)])
        = [("chat|cat", witnessRecordC2)] :=
  ⟨by decide, save_load_round_trip [("chat|cat", witnessRecordC2)] (by decide)⟩

/-- C8: loading repairs rather than drops corrupted entries — the keys
of the loaded mapping are exactly the input keys in order, and every
entry whose value is not a dict with a list-valued `occurrences` field
is replaced by the record rebuilt from its key: the part before the
first separator as word, the part after it as translation, and an empty
occurrences list. -/
theorem load_repairs_corrupted (data : List (String × RawEntry)) :
    (load_tracking_data data).map Prod.fst = data.map Prod.fst
    ∧ ∀ key v, (key, v) ∈ data → goodShape v = false →
        (key, (⟨(splitKey key).1, (splitKey key).2,
          OccsField.list []⟩ : WordRecord)) ∈ load_tracking_data data := by
  constructor
  · induction data with
    | nil => rfl
    | cons kv rest ih =>
      obtain ⟨k0, v0⟩ := kv
      simp only [load_tracking_data, validate_and_fix_data,
        List.map_cons] at ih ⊢
      rw [fixEntry_fst, ih]
  · intro key v hmem hbad
    have hfix : fixEntry key v
        = (key, (⟨(splitKey key).1, (splitKey key).2,
            OccsField.list []⟩ : WordRecord)) := by
      cases v with
      | notDict => rfl
      | dict r =>
        obtain ⟨w0, t0, oc⟩ := r
        cases oc with
        | list occs => simp [goodShape] at hbad
        | absent => rfl
        | notList => rfl
    have hm : fixEntry key v ∈ load_tracking_data data := by
      simp only [load_tracking_data, validate_and_fix_data]
      exact List.mem_map_of_mem _ hmem
    rw [hfix] at hm
    exact hm

theorem load_repairs_corrupted_witness :
    (load_tracking_data [("bonjour|hello", RawEntry.notDict)]).map Prod.fst
      = ["bonjour|hello"]
    ∧ ("bonjour|hello", (⟨"bonjour", "hello",
        OccsField.list []⟩ : WordRecord))
      ∈ load_tracking_data [("bonjour|hello", RawEntry.notDict)] :=
  ⟨(load_repairs_corrupted [("bonjour|hello", RawEntry.notDict)]).1,
   by
    have h := (load_repairs_corrupted [("bonjour|hello", RawEntry.notDict)]).2
      "bonjour|hello" RawEntry.notDict (by decide) (by decide)
    have hs : splitKey "bonjour|hello" = ("bonjour", "hello") := by decide
    rw [hs] at h
    exact h⟩

/-- Occurrence history with one misunderstanding and one successful
use. -/
def occsOneRepeat : List Occ :=
  [Occ.mk DateField.unparseable true, Occ.mk DateField.unparseable false]

/-- Same length and last-use date as `occsOneRepeat`, one more repeat. -/
def occsTwoRepeats : List Occ :=
  [Occ.mk DateField.unparseable true, Occ.mk DateField.unparseable true]

/-- C5: holding days-since-last-use and the total occurrence count
fixed, one more repeat occurrence raises the priority by exactly 20
(additive, not multiplicative), provided the reference result was not
saturated by the minimum-of-1 clamp. -/
theorem misunderstanding_additive (now : Int) (s1 s2 : Store)
    (word translation : String) (r1 r2 : WordRecord) (l1 l2 : List Occ)
    (h1 : lookup s1 (word_key word translation) = some r1)
    (h2 : lookup s2 (word_key word translation) = some r2)
    (ho1 : r1.occurrences = OccsField.list l1)
    (ho2 : r2.occurrences = OccsField.list l2)
    (hdays : days_since_last_use now l2 = days_since_last_use now l1)
    (hlen : l2.length = l1.length)
    (hrep : times_not_understood_of l2 = times_not_understood_of l1 + 1)
    (hnosat : 1 ≤ base_priority (days_since_last_use now l1)
        + misunderstanding_bonus (times_not_understood_of l1)
        - frequency_penalty l1.length) :
    (calculate_word_priority now s2 word translation).1
      = (calculate_word_priority now s1 word translation).1 + 20
    ∧ (calculate_word_priority now s1 word translation).1
        < (calculate_word_priority now s2 word translation).1 := by
  rw [calc_eq_of_lookup_list now s1 word translation r1 l1 h1 ho1,
      calc_eq_of_lookup_list now s2 word translation r2 l2 h2 ho2]
  simp only [priority_of_occurrences, base_priority, misunderstanding_bonus,
    frequency_penalty, hdays, hlen, hrep] at hnosat ⊢
  push_cast
  omega

theorem misunderstanding_additive_witness :
    days_since_last_use 0 occsTwoRepeats = days_since_last_use 0 occsOneRepeat
    ∧ occsTwoRepeats.length = occsOneRepeat.length
    ∧ times_not_understood_of occsTwoRepeats
        = times_not_understood_of occsOneRepeat + 1
    ∧ 1 ≤ base_priority (days_since_last_use 0 occsOneRepeat)
        + misunderstanding_bonus (times_not_understood_of occsOneRepeat)
        - frequency_penalty occsOneRepeat.length
    ∧ ((calculate_word_priority 0
          [("a|b", ⟨"a", "b", OccsField.list occsTwoRepeats⟩)] "a" "b").1
        = (calculate_word_priority 0
            [("a|b", ⟨"a", "b", OccsField.list occsOneRepeat⟩)] "a" "b").1 + 20
      ∧ (calculate_word_priority 0
          [("a|b", ⟨"a", "b", OccsField.list occsOneRepeat⟩)] "a" "b").1
        < (calculate_word_priority 0
            [("a|b", ⟨"a", "b", OccsField.list occsTwoRepeats⟩)] "a" "b").1) :=
  ⟨by decide, by decide, by decide, by decide,
   misunderstanding_additive 0
     [("a|b", ⟨"a", "b", OccsField.list occsOneRepeat⟩)]
     [("a|b", ⟨"a", "b", OccsField.list occsTwoRepeats⟩)]
     "a" "b" ⟨"a", "b", OccsField.list occsOneRepeat⟩
     ⟨"a", "b", OccsField.list occsTwoRepeats⟩ occsOneRepeat occsTwoRepeats
     (by decide) (by decide) (by decide) (by decide)
     (by decide) (by decide) (by decide) (by decide)⟩

/-- One successful use dated today. -/
def occsOneFresh : List Occ := [Occ.mk (DateField.date 0) false]

/-- Two successful uses dated today. -/
def occsTwoFresh : List Occ :=
  [Occ.mk (DateField.date 0) false, Occ.mk (DateField.date 0) false]

/-- C6 (counterexample): with the minimum-of-1 clamp active the
priority does not decrease at all — one fresh use scores
`max(0 + 0 - 2, 1) = 1` and a second fresh use still scores
`max(0 + 0 - 4, 1) = 1`, although days-since-last-use and the
misunderstanding count are held fixed and the frequency penalty is
still below its 30-point cap. -/
theorem frequency_penalty_decrease_cex :
    days_since_last_use 0 occsTwoFresh = days_since_last_use 0 occsOneFresh
    ∧ times_not_understood_of occsTwoFresh = times_not_understood_of occsOneFresh
    ∧ occsTwoFresh.length = occsOneFresh.length + 1
    ∧ frequency_penalty occsTwoFresh.length < 30
    ∧ ¬ ((calculate_word_priority 0
          [("a|b", ⟨"a", "b", OccsField.list occsTwoFresh⟩)] "a" "b").1
        < (calculate_word_priority 0
            [("a|b", ⟨"a", "b", OccsField.list occsOneFresh⟩)] "a" "b").1) := by
  decide

/-- C6 (amended): holding days-since-last-use and the misunderstanding
count fixed, each additional non-repeat occurrence lowers the priority
by exactly 2 — strictly — as long as the frequency penalty has not
reached its 30-point cap and the result is not clamped at the minimum
of 1; the frequency penalty itself never exceeds 30. -/
theorem frequency_penalty_decrease (now : Int) (s1 s2 : Store)
    (word translation : String) (r1 r2 : WordRecord) (l1 l2 : List Occ)
    (h1 : lookup s1 (word_key word translation) = some r1)
    (h2 : lookup s2 (word_key word translation) = some r2)
    (ho1 : r1.occurrences = OccsField.list l1)
    (ho2 : r2.occurrences = OccsField.list l2)
    (hdays : days_since_last_use now l2 = days_since_last_use now l1)
    (hrep : times_not_understood_of l2 = times_not_understood_of l1)
    (hlen : l2.length = l1.length + 1)
    (hcap : (l2.length : Int) * 2 ≤ 30)
    (hnoclamp : 1 ≤ base_priority (days_since_last_use now l2)
        + misunderstanding_bonus (times_not_understood_of l2)
        - frequency_penalty l2.length) :
    ((calculate_word_priority now s2 word translation).1
        = (calculate_word_priority now s1 word translation).1 - 2
      ∧ (calculate_word_priority now s2 word translation).1
          < (calculate_word_priority now s1 word translation).1)
    ∧ ∀ times_used : Nat, frequency_penalty times_used ≤ 30 := by
  refine ⟨?_, fun times_used => min_le_right _ _⟩
  rw [calc_eq_of_lookup_list now s1 word translation r1 l1 h1 ho1,
      calc_eq_of_lookup_list now s2 word translation r2 l2 h2 ho2]
  simp only [priority_of_occurrences, base_priority, misunderstanding_bonus,
    frequency_penalty, hdays, hrep, hlen] at hnoclamp hcap ⊢
  push_cast at hcap hnoclamp ⊢
  omega

theorem frequency_penalty_decrease_witness :
    days_since_last_use 0 occsOneRepeat = days_since_last_use 0 [Occ.mk DateField.unparseable true]
    ∧ times_not_understood_of occsOneRepeat
        = times_not_understood_of [Occ.mk DateField.unparseable true]
    ∧ occsOneRepeat.length = [Occ.mk DateField.unparseable true].length + 1
    ∧ (occsOneRepeat.length : Int) * 2 ≤ 30
    ∧ 1 ≤ base_priority (days_since_last_use 0 occsOneRepeat)
        + misunderstanding_bonus (times_not_understood_of occsOneRepeat)
        - frequency_penalty occsOneRepeat.length
    ∧ (((calculate_word_priority 0
          [("a|b", ⟨"a", "b", OccsField.list occsOneRepeat⟩)] "a" "b").1
        = (calculate_word_priority 0
            [("a|b", ⟨"a", "b",
              OccsField.list [Occ.mk DateField.unparseable true]⟩)] "a" "b").1 - 2
      ∧ (calculate_word_priority 0
          [("a|b", ⟨"a", "b", OccsField.list occsOneRepeat⟩)] "a" "b").1
        < (calculate_word_priority 0
            [("a|b", ⟨"a", "b",
              OccsField.list [Occ.mk DateField.unparseable true]⟩)] "a" "b").1)
      ∧ ∀ times_used : Nat, frequency_penalty times_used ≤ 30) :=
  ⟨by decide, by decide, by decide, by decide, by decide,
   frequency_penalty_decrease 0
     [("a|b", ⟨"a", "b", OccsField.list [Occ.mk DateField.unparseable true]⟩)]
     [("a|b", ⟨"a", "b", OccsField.list occsOneRepeat⟩)]
     "a" "b" ⟨"a", "b", OccsField.list [Occ.mk DateField.unparseable true]⟩
     ⟨"a", "b", OccsField.list occsOneRepeat⟩
     [Occ.mk DateField.unparseable true] occsOneRepeat
     (by decide) (by decide) (by decide) (by decide)
     (by decide) (by decide) (by decide) (by decide) (by decide)⟩

theorem add_eq_of_lookup_none (now : Int) (s : Store)
    (word translation : String) (b : Bool)
    (h : lookup s (word_key word translation) = none) :
    _add_occurrence now s word translation b
      = setEntry s (word_key word translation)
          ⟨word, translation,
            OccsField.list [Occ.mk (DateField.date now) b]⟩ := by
  simp [_add_occurrence, h]

theorem add_eq_of_lookup_list (now : Int) (s : Store)
    (word translation : String) (b : Bool) (r : WordRecord) (l : List Occ)
    (h : lookup s (word_key word translation) = some r)
    (ho : r.occurrences = OccsField.list l) :
    _add_occurrence now s word translation b
      = setEntry s (word_key word translation)
          { r with occurrences :=
              OccsField.list (l ++ [Occ.mk (DateField.date now) b]) } := by
  obtain ⟨w0, t0, oc⟩ := r
  simp only at ho
  subst ho
  simp [_add_occurrence, h]

/-- C10: the recorder operations touch only the entry for the derived
key — creating it (appended at the end of the mapping) when absent,
appending exactly one occurrence (repeat = false for `mark_word_used`,
true for `mark_word_not_understood`) to its list otherwise — leave its
`word`/`translation` fields and every other key's record unchanged, and
preserve the list-valued-`occurrences` invariant of the store. -/
theorem add_occurrence_frame (now : Int) (s : Store)
    (word translation : String) (b : Bool) (hwf : WellFormed s = true) :
    (mark_word_used now s word translation
        = _add_occurrence now s word translation false
      ∧ mark_word_not_understood now s word translation
        = _add_occurrence now s word translation true)
    ∧ (∀ k, k ≠ word_key word translation →
        lookup (_add_occurrence now s word translation b) k = lookup s k)
    ∧ (lookup s (word_key word translation) = none →
        _add_occurrence now s word translation b
          = s ++ [(word_key word translation,
              ⟨word, translation,
                OccsField.list [Occ.mk (DateField.date now) b]⟩)])
    ∧ (∀ r l, lookup s (word_key word translation) = some r →
        r.occurrences = OccsField.list l →
        lookup (_add_occurrence now s word translation b)
            (word_key word translation)
          = some ⟨r.word, r.translation,
              OccsField.list (l ++ [Occ.mk (DateField.date now) b])⟩)
    ∧ WellFormed (_add_occurrence now s word translation b) = true := by
  refine ⟨⟨rfl, rfl⟩, ?_, ?_, ?_, ?_⟩
  · intro k hk
    cases hl : lookup s (word_key word translation) with
    | none =>
      rw [add_eq_of_lookup_none now s word translation b hl]
      exact lookup_setEntry_ne s _ k _ hk
    | some r =>
      have hmem := lookup_some_mem s _ r hl
      have hr : WellFormedRecord r = true := by
        simp only [WellFormed, List.all_eq_true] at hwf
        exact hwf _ hmem
      simp only [WellFormedRecord] at hr
      cases ho : r.occurrences with
      | list l =>
        rw [add_eq_of_lookup_list now s word translation b r l hl ho]
        exact lookup_setEntry_ne s _ k _ hk
      | absent => rw [ho] at hr; simp at hr
      | notList => rw [ho] at hr; simp at hr
  · intro hl
    rw [add_eq_of_lookup_none now s word translation b hl]
    exact setEntry_eq_append s _ _ hl
  · intro r l hl ho
    rw [add_eq_of_lookup_list now s word translation b r l hl ho]
    rw [lookup_setEntry_self]
  · cases hl : lookup s (word_key word translation) with
    | none =>
      rw [add_eq_of_lookup_none now s word translation b hl]
      exact wellFormed_setEntry s _ _ hwf rfl
    | some r =>
      have hmem := lookup_some_mem s _ r hl
      have hr : WellFormedRecord r = true := by
        simp only [WellFormed, List.all_eq_true] at hwf
        exact hwf _ hmem
      simp only [WellFormedRecord] at hr
      cases ho : r.occurrences with
      | list l =>
        rw [add_eq_of_lookup_list now s word translation b r l hl ho]
        exact wellFormed_setEntry s _ _ hwf rfl
      | absent => rw [ho] at hr; simp at hr
      | notList => rw [ho] at hr; simp at hr

theorem add_occurrence_frame_witness :
    WellFormed [] = true
    ∧ ((mark_word_used 0 [] "chat" "cat"
          = _add_occurrence 0 [] "chat" "cat" false
        ∧ mark_word_not_understood 0 [] "chat" "cat"
          = _add_occurrence 0 [] "chat" "cat" true)
      ∧ (∀ k, k ≠ word_key "chat" "cat" →
          lookup (_add_occurrence 0 [] "chat" "cat" true) k = lookup [] k)
      ∧ (lookup [] (word_key "chat" "cat") = none →
          _add_occurrence 0 [] "chat" "cat" true
            = [] ++ [(word_key "chat" "cat",
                ⟨"chat", "cat",
                  OccsField.list [Occ.mk (DateField.date 0) true]⟩)])
      ∧ (∀ r l, lookup [] (word_key "chat" "cat") = some r →
          r.occurrences = OccsField.list l →
          lookup (_add_occurrence 0 [] "chat" "cat" true)
              (word_key "chat" "cat")
            = some ⟨r.word, r.translation,
                OccsField.list (l ++ [Occ.mk (DateField.date 0) true])⟩)
      ∧ WellFormed (_add_occurrence 0 [] "chat" "cat" true) = true) :=
  ⟨by decide, add_occurrence_frame 0 [] "chat" "cat" true (by decide)⟩

theorem mem_insertDesc (x y : Scored) (l : List Scored) :
    y ∈ insertDesc x l ↔ y = x ∨ y ∈ l := by
  induction l with
  | nil => simp [insertDesc]
  | cons z l ih =>
    by_cases h : priof z ≤ priof x
    · simp only [insertDesc, if_pos h, List.mem_cons]
    · simp only [insertDesc, if_neg h, List.mem_cons, ih]
      tauto

theorem pairwise_insertDesc (x : Scored) (l : List Scored)
    (h : l.Pairwise (fun a b => priof b ≤ priof a)) :
    (insertDesc x l).Pairwise (fun a b => priof b ≤ priof a) := by
  induction l with
  | nil => simp [insertDesc]
  | cons z l ih =>
    rw [List.pairwise_cons] at h
    obtain ⟨hz, hl⟩ := h
    by_cases hc : priof z ≤ priof x
    · simp only [insertDesc, if_pos hc, List.pairwise_cons]
      refine ⟨?_, ?_⟩
      · intro b hb
        rcases List.mem_cons.mp hb with rfl | hb2
        · exact hc
        · exact le_trans (hz b hb2) hc
      · exact ⟨hz, hl⟩
    · simp only [insertDesc, if_neg hc, List.pairwise_cons]
      refine ⟨?_, ih hl⟩
      intro b hb
      rcases (mem_insertDesc x b l).mp hb with rfl | hb2
      · exact le_of_not_le hc
      · exact hz b hb2

theorem mem_sortDesc (y : Scored) (l : List Scored) :
    y ∈ sortDesc l ↔ y ∈ l := by
  induction l with
  | nil => simp [sortDesc]
  | cons x l ih => simp [sortDesc, mem_insertDesc, ih]

theorem pairwise_sortDesc (l : List Scored) :
    (sortDesc l).Pairwise (fun a b => priof b ≤ priof a) := by
  induction l with
  | nil => simp [sortDesc]
  | cons x l ih => exact pairwise_insertDesc x _ ih

theorem length_insertDesc (x : Scored) (l : List Scored) :
    (insertDesc x l).length = l.length + 1 := by
  induction l with
  | nil => rfl
  | cons z l ih =>
    by_cases h : priof z ≤ priof x
    · simp [insertDesc, h]
    · simp [insertDesc, h, ih]

theorem length_sortDesc (l : List Scored) :
    (sortDesc l).length = l.length := by
  induction l with
  | nil => rfl
  | cons x l ih => simp [sortDesc, length_insertDesc, ih]

theorem scoreAll_length (now : Int) (stats : Store) (es : List VocabEntry) :
    (scoreAll now stats es).1.length = es.length := by
  induction es generalizing stats with
  | nil => rfl
  | cons e es ih => simp [scoreAll, ih]

theorem scoreAll_mem (now : Int) (stats : Store) (es : List VocabEntry)
    (x : Scored) (hx : x ∈ (scoreAll now stats es).1) :
    ∃ e ∈ es, x.1 = entryWord e ∧ x.2.1 = entryTranslation e
      ∧ x.2.2.1 = entryPronunciation e := by
  induction es generalizing stats with
  | nil => simp [scoreAll] at hx
  | cons e es ih =>
    simp only [scoreAll, List.mem_cons] at hx
    rcases hx with rfl | hx2
    · exact ⟨e, List.mem_cons_self _ _, rfl, rfl, rfl⟩
    · obtain ⟨e2, he2, hp⟩ := ih _ hx2
      exact ⟨e2, List.mem_cons_of_mem _ he2, hp⟩

/-- C4: when `sampled` is what `random.sample` drew — `min 40 |vocab|`
elements taken from `vocab_list` — the selection returns at most
`min count |vocab_list|` items, each corresponding to a candidate (a
missing pronunciation normalized to `""`); the scored selection is
ordered by descending priority and the output is exactly its
score-stripped image; and the empty candidate list yields the empty
selection for any count. -/
theorem select_words_by_priority_spec (now : Int) (stats : Store)
    (vocab_list sampled : List VocabEntry) (count : Nat)
    (hlen : sampled.length = min 40 vocab_list.length)
    (hmem : ∀ e ∈ sampled, e ∈ vocab_list) :
    (select_words_by_priority now stats vocab_list sampled count).length
        ≤ min count vocab_list.length
    ∧ (∀ x ∈ select_words_by_priority now stats vocab_list sampled count,
        ∃ e ∈ vocab_list,
          x = (entryWord e, entryTranslation e, entryPronunciation e))
    ∧ (select_scored now stats sampled count).Pairwise
        (fun a b => priof b ≤ priof a)
    ∧ (vocab_list ≠ [] →
        select_words_by_priority now stats vocab_list sampled count
          = (select_scored now stats sampled count).map
              (fun x => (x.1, x.2.1, x.2.2.1)))
    ∧ (vocab_list = [] →
        select_words_by_priority now stats vocab_list sampled count = []) := by
  refine ⟨?_, ?_, ?_, ?_, ?_⟩
  · by_cases hv : vocab_list.isEmpty
    · simp [select_words_by_priority, hv]
    · simp only [select_words_by_priority, hv, Bool.false_eq_true, if_false,
        List.length_map, select_scored, List.length_take, length_sortDesc,
        scoreAll_length, hlen]
      omega
  · intro x hx
    by_cases hv : vocab_list.isEmpty
    · simp [select_words_by_priority, hv] at hx
    · simp only [select_words_by_priority, hv, Bool.false_eq_true, if_false,
        List.mem_map] at hx
      obtain ⟨y, hy, rfl⟩ := hx
      simp only [select_scored] at hy
      have hy2 : y ∈ sortDesc (scoreAll now stats sampled).1 :=
        List.take_subset _ _ hy
      have hy3 : y ∈ (scoreAll now stats sampled).1 := (mem_sortDesc _ _).mp hy2
      obtain ⟨e, he, h1, h2, h3⟩ := scoreAll_mem now stats sampled y hy3
      refine ⟨e, hmem e he, ?_⟩
      rw [h1, h2, h3]
  · exact (pairwise_sortDesc _).sublist (List.take_sublist _ _)
  · intro hv
    have hne : vocab_list.isEmpty = false := by
      cases vocab_list with
      | nil => simp at hv
      | cons a l => rfl
    simp [select_words_by_priority, hne]
  · intro hv
    subst hv
    rfl

/-- Concrete candidate list for the C4 witness. -/
def vocabW : List VocabEntry := [VocabEntry.pair "a" "b"]

theorem select_words_by_priority_spec_witness :
    (vocabW.length = min 40 vocabW.length ∧ ∀ e ∈ vocabW, e ∈ vocabW)
    ∧ ((select_words_by_priority 0 [] vocabW vocabW 2).length
          ≤ min 2 vocabW.length
      ∧ (∀ x ∈ select_words_by_priority 0 [] vocabW vocabW 2,
          ∃ e ∈ vocabW,
            x = (entryWord e, entryTranslation e, entryPronunciation e))
      ∧ (select_scored 0 [] vocabW 2).Pairwise
          (fun a b => priof b ≤ priof a)
      ∧ (vocabW ≠ [] →
          select_words_by_priority 0 [] vocabW vocabW 2
            = (select_scored 0 [] vocabW 2).map
                (fun x => (x.1, x.2.1, x.2.2.1)))
      ∧ (vocabW = [] →
          select_words_by_priority 0 [] vocabW vocabW 2 = [])) :=
  ⟨⟨by decide, by decide⟩,
   select_words_by_priority_spec 0 [] vocabW vocabW 2 (by decide) (by decide)⟩
